import Mathlib

/-!
Verification of the Monkey-language lexer and Pratt parser front end.

The definitions below are a shallow embedding of the Go sources:
  * token model and lexer  : src/token/token.go (token constants, keyword
    table, `Lexer` with `readChar`, `skipWhitespace`, `readIdentifier`,
    `readNumber`, `peekChar`, `NextToken`)
  * AST node set           : src/ast/ast.go
  * parser                 : src/parser/parser.go (the complete Pratt parser
    with prefix/infix dispatch, precedence table, statement handlers)

Go strings are modelled as `List Char` at the byte level (all inputs of
interest are ASCII; a `Char` with code < 256 stands for one byte, and the
Go NUL sentinel is `Char.ofNat 0`).  Machine loops (`for` in Go) are
modelled as explicitly fuelled recursive functions; entry points supply
fuel that provably suffices (`input.length + 2` bounds every scan, since
the read cursor strictly advances on each iteration).
-/

namespace Monkey

/-! ### Token model (src/token/token.go) -/

/-- Go `token.TokenType` is a string; `token.Token` carries a kind and the
matched lexeme. -/
structure Token where
  type : String
  literal : String
deriving DecidableEq, Repr

def ILLEGAL : String := "ILLEGAL"
def EOF : String := "EOF"
def IDENT : String := "IDENT"
def INT : String := "INT"
def ASSIGN : String := "="
def PLUS : String := "+"
def MINUS : String := "-"
def BANG : String := "!"
def ASTERISK : String := "*"
def SLASH : String := "/"
def LT : String := "<"
def GT : String := ">"
def EQ : String := "=="
def NOT_EQ : String := "!="
def COMMA : String := ","
def SEMICOLON : String := ";"
def LPAREN : String := "("
def RPAREN : String := ")"
def LBRACE : String := "\x7b"
def RBRACE : String := "\x7d"
def FUNCTION : String := "FUNCTION"
def LET : String := "LET"
def TRUE : String := "TRUE"
def FALSE : String := "FALSE"
def IF : String := "IF"
def ELSE : String := "ELSE"
def RETURN : String := "RETURN"

/-- The keyword table `token.keywords` consulted by `LookupIdent`. -/
def LookupIdent (ident : String) : String :=
  if ident = "fn" then FUNCTION
  else if ident = "let" then LET
  else if ident = "true" then TRUE
  else if ident = "false" then FALSE
  else if ident = "if" then IF
  else if ident = "else" then ELSE
  else if ident = "return" then RETURN
  else IDENT

/-! ### Lexer state (src/token/token.go, `Lexer`) -/

/-- The Go NUL sentinel byte (`l.ch = 0`). -/
def nulChar : Char := Char.ofNat 0

structure Lexer where
  input : List Char
  position : Nat
  readPosition : Nat
  ch : Char
deriving DecidableEq, Repr

/-- `Lexer.readChar`: load the byte at `readPosition` (NUL past the end)
and advance the cursors. -/
def Lexer.readChar (l : Lexer) : Lexer :=
  { l with
    ch := if l.input.length ≤ l.readPosition then nulChar
          else l.input.getD l.readPosition nulChar
    position := l.readPosition
    readPosition := l.readPosition + 1 }

/-- `lexer.New`: zero-valued struct plus one `readChar`. -/
def lexerNew (input : List Char) : Lexer :=
  Lexer.readChar { input := input, position := 0, readPosition := 0, ch := nulChar }

/-- `Lexer.peekChar`. -/
def Lexer.peekChar (l : Lexer) : Char :=
  if l.input.length ≤ l.readPosition then nulChar
  else l.input.getD l.readPosition nulChar

def isLetter (ch : Char) : Bool :=
  ('a' ≤ ch && ch ≤ 'z') || ('A' ≤ ch && ch ≤ 'Z') || ch = '_'

def isDigit (ch : Char) : Bool :=
  '0' ≤ ch && ch ≤ '9'

def isWhitespaceByte (ch : Char) : Bool :=
  ch = ' ' || ch = '\t' || ch = '\n' || ch = '\r'

/-- Common shape of the three scanning loops in the lexer
(`skipWhitespace`, and the bodies of `readIdentifier` / `readNumber`):
`for pred(l.ch) { l.readChar() }`, with explicit fuel. -/
def Lexer.scanWhile (pred : Char → Bool) : Nat → Lexer → Lexer
  | 0, l => l
  | fuel + 1, l => if pred l.ch then Lexer.scanWhile pred fuel l.readChar else l

/-- `Lexer.skipWhitespace`. -/
def Lexer.skipWhitespace (fuel : Nat) (l : Lexer) : Lexer :=
  Lexer.scanWhile isWhitespaceByte fuel l

/-- `Lexer.readIdentifier`: scan a maximal letter run and return the slice
`l.input[position₀ : position]` together with the advanced lexer. -/
def Lexer.readIdentifier (fuel : Nat) (l : Lexer) : String × Lexer :=
  let l' := Lexer.scanWhile isLetter fuel l
  (String.mk ((l.input.drop l.position).take (l'.position - l.position)), l')

/-- `Lexer.readNumber`: scan a maximal digit run, same slicing. -/
def Lexer.readNumber (fuel : Nat) (l : Lexer) : String × Lexer :=
  let l' := Lexer.scanWhile isDigit fuel l
  (String.mk ((l.input.drop l.position).take (l'.position - l.position)), l')

/-- `token.newToken`. -/
def newToken (tokenType : String) (ch : Char) : Token :=
  { type := tokenType, literal := String.mk [ch] }

/-- `Lexer.NextToken` with explicit fuel for the inner scans.  The switch
follows src/token/token.go lines 63-130 exactly: whitespace skip, the
single/double-character operator cases, NUL → EOF, then the default branch
(letters → identifiers/keywords, digits → INT, anything else → ILLEGAL). -/
def Lexer.nextTokenF (fuel : Nat) (l0 : Lexer) : Token × Lexer :=
  let l := Lexer.skipWhitespace fuel l0
  if l.ch = '=' then
    if Lexer.peekChar l = '=' then
      let ch := l.ch
      let l1 := l.readChar
      (⟨EQ, String.mk [ch, l1.ch]⟩, l1.readChar)
    else (newToken ASSIGN l.ch, l.readChar)
  else if l.ch = ';' then (newToken SEMICOLON l.ch, l.readChar)
  else if l.ch = '(' then (newToken LPAREN l.ch, l.readChar)
  else if l.ch = ')' then (newToken RPAREN l.ch, l.readChar)
  else if l.ch = '\x7b' then (newToken LBRACE l.ch, l.readChar)
  else if l.ch = '\x7d' then (newToken RBRACE l.ch, l.readChar)
  else if l.ch = ',' then (newToken COMMA l.ch, l.readChar)
  else if l.ch = '+' then (newToken PLUS l.ch, l.readChar)
  else if l.ch = '-' then (newToken MINUS l.ch, l.readChar)
  else if l.ch = '!' then
    if Lexer.peekChar l = '=' then
      let ch := l.ch
      let l1 := l.readChar
      (⟨NOT_EQ, String.mk [ch, l1.ch]⟩, l1.readChar)
    else (newToken BANG l.ch, l.readChar)
  else if l.ch = '/' then (newToken SLASH l.ch, l.readChar)
  else if l.ch = '*' then (newToken ASTERISK l.ch, l.readChar)
  else if l.ch = '<' then (newToken LT l.ch, l.readChar)
  else if l.ch = '>' then (newToken GT l.ch, l.readChar)
  else if l.ch = nulChar then (⟨EOF, ""⟩, l.readChar)
  else if isLetter l.ch then
    let r := Lexer.readIdentifier fuel l
    (⟨LookupIdent r.1, r.1⟩, r.2)
  else if isDigit l.ch then
    let r := Lexer.readNumber fuel l
    (⟨INT, r.1⟩, r.2)
  else (newToken ILLEGAL l.ch, l.readChar)

/-- `Lexer.NextToken` at ample fuel: every scanning loop performs at most
`input.length + 2` iterations from any state, because `readPosition`
strictly increases and a read past the end yields NUL, which no scan
predicate accepts. -/
def Lexer.nextToken (l : Lexer) : Token × Lexer :=
  Lexer.nextTokenF (l.input.length + 2) l

/-- The REPL's token loop (src/repl, part_002): collect tokens up to and
including the first EOF, with fuel bounding the number of calls. -/
def tokenizeF : Nat → Lexer → List Token
  | 0, _ => []
  | fuel + 1, l =>
    let r := Lexer.nextToken l
    if r.1.type = EOF then [r.1] else r.1 :: tokenizeF fuel r.2

/-! ### AST node set (src/ast/ast.go)

Go interface values that may be nil pointers are modelled with `Option`:
`Option Expression` for an `ast.Expression` field or return value,
`Option Identifier` for `*ast.Identifier`, `Option BlockStatement` for
`*ast.BlockStatement`, and `Option (List …)` for a slice that may be the
nil slice.  The `FunctionLiteral` and `CallExpression` struct shapes are
taken from their uses in src/parser/parser.go (fields `Token`,
`Parameters`, `Body` and `Token`, `Function`, `Arguments`). -/

/-- `ast.Identifier`. -/
structure Identifier where
  token : Token
  value : String
deriving DecidableEq, Repr

mutual

inductive Expression where
  | identifier (token : Token) (value : String)
  | integerLiteral (token : Token) (value : Int)
  | boolean (token : Token) (value : Bool)
  | prefixExpression (token : Token) (operator : String) (right : Option Expression)
  | infixExpression (token : Token) (left : Option Expression) (operator : String)
      (right : Option Expression)
  | ifExpression (token : Token) (condition : Option Expression)
      (consequence : Option BlockStatement) (alternative : Option BlockStatement)
  | functionLiteral (token : Token) (parameters : Option (List Identifier))
      (body : Option BlockStatement)
  | callExpression (token : Token) (function : Option Expression)
      (arguments : Option (List (Option Expression)))

inductive Statement where
  | letStatement (token : Token) (name : Option Identifier) (value : Option Expression)
  | returnStatement (token : Token) (returnValue : Option Expression)
  | expressionStatement (token : Token) (expression : Option Expression)

inductive BlockStatement where
  | mk (token : Token) (statements : List Statement)

end

/-- `ast.Program`. -/
structure Program where
  statements : List Statement

/-! Canonical rendering: the `String()` methods of src/ast/ast.go.  A Go
call on a nil pointer would panic; the `Option` eliminators below render
the sentinel `"<nil>"` in that case (no theorem in this file evaluates the
sentinel).  `FunctionLiteral` and `CallExpression` have no `String` method
in the provided sources, so their rendering is left as `""`; no theorem
evaluates it. -/

/-- `ast.Identifier.String` applied through a possibly-nil pointer. -/
def optIdentString : Option Identifier → String
  | none => "<nil>"
  | some i => i.value

mutual

def exprString : Expression → String
  | .identifier _ value => value
  | .integerLiteral tok _ => tok.literal
  | .boolean tok _ => tok.literal
  | .prefixExpression _ operator right =>
      "(" ++ operator ++ optExprString right ++ ")"
  | .infixExpression _ left operator right =>
      "(" ++ optExprString left ++ " " ++ operator ++ " " ++ optExprString right ++ ")"
  | .ifExpression _ condition consequence alternative =>
      "if" ++ optExprString condition ++ " " ++ optBlockString consequence ++
        (match alternative with
         | none => ""
         | some b => "else " ++ blockString b)
  | .functionLiteral _ _ _ => ""
  | .callExpression _ _ _ => ""

def optExprString : Option Expression → String
  | none => "<nil>"
  | some e => exprString e

def stmtString : Statement → String
  | .letStatement tok name value =>
      tok.literal ++ " " ++ optIdentString name ++ " = " ++
        (match value with | none => "" | some v => exprString v) ++ ";"
  | .returnStatement tok returnValue =>
      tok.literal ++ " " ++
        (match returnValue with | none => "" | some v => exprString v) ++ ";"
  | .expressionStatement _ expression =>
      match expression with | none => "" | some e => exprString e

def stmtsString : List Statement → String
  | [] => ""
  | s :: rest => stmtString s ++ stmtsString rest

def blockString : BlockStatement → String
  | .mk _ statements => stmtsString statements

def optBlockString : Option BlockStatement → String
  | none => "<nil>"
  | some b => blockString b

end

/-- `ast.Program.String`. -/
def programString (p : Program) : String := stmtsString p.statements

/-! ### Go integer conversion

`parseIntegerLiteral` calls `strconv.ParseInt(lit, 0, 64)`.  `strconv` is
Go's standard library, not part of this repository; the model below
follows its documented behaviour for base `0` and bit size 64: an optional
sign, then C-style base detection (`0x`/`0X` hex, `0o`/`0O` octal,
`0b`/`0B` binary, a leading `0` followed by more characters octal,
otherwise decimal), a non-empty digit run in that base, and a signed
64-bit range check.  (Go additionally permits `_` separators between
digits in base-0 mode; the lexer only ever produces runs of the digits
`0`-`9`, which contain no underscore, so underscores are not modelled and
`goParseInt` rejects them as invalid digits.)  `none` models a non-nil
`err`. -/

def digitValue (c : Char) : Option Nat :=
  if '0' ≤ c ∧ c ≤ '9' then some (c.toNat - '0'.toNat)
  else if 'a' ≤ c ∧ c ≤ 'z' then some (c.toNat - 'a'.toNat + 10)
  else if 'A' ≤ c ∧ c ≤ 'Z' then some (c.toNat - 'A'.toNat + 10)
  else none

def digitsValAux (base : Nat) : List Char → Nat → Option Nat
  | [], acc => some acc
  | c :: cs, acc =>
    match digitValue c with
    | some d => if d < base then digitsValAux base cs (acc * base + d) else none
    | none => none

/-- Value of a non-empty digit run in the given base (`none` if empty or
if any character is not a digit of the base). -/
def digitsVal (base : Nat) (cs : List Char) : Option Nat :=
  match cs with
  | [] => none
  | _ => digitsValAux base cs 0

/-- Sign handling of `strconv.ParseInt`. -/
def goSign : List Char → Bool × List Char
  | [] => (false, [])
  | c :: r =>
    if c = '+' then (false, r)
    else if c = '-' then (true, r)
    else (false, c :: r)

/-- Base detection of `strconv.ParseInt` in base-`0` mode (C-style
prefixes; a leading `0` followed by anything other than a base letter
means octal). -/
def goBase : List Char → Nat × List Char
  | c0 :: c1 :: r =>
    if c0 = '0' then
      if c1 = 'x' ∨ c1 = 'X' then (16, r)
      else if c1 = 'o' ∨ c1 = 'O' then (8, r)
      else if c1 = 'b' ∨ c1 = 'B' then (2, r)
      else (8, c0 :: c1 :: r)
    else (10, c0 :: c1 :: r)
  | cs => (10, cs)

/-- Models `strconv.ParseInt(s, 0, 64)` (see the section comment). -/
def goParseInt (s : String) : Option Int :=
  match s.data with
  | [] => none
  | cs =>
    let signed := goSign cs
    let based := goBase signed.2
    match digitsVal based.1 based.2 with
    | none => none
    | some n =>
      let v : Int := if signed.1 then -(n : Int) else (n : Int)
      if v < -(2 ^ 63) ∨ 2 ^ 63 - 1 < v then none else some v

/-- Largest signed 64-bit value, as a natural number. -/
def int64MaxN : Nat := 2 ^ 63 - 1

/-- The decimal value of a digit string (the spec's reading of an integer
lexeme). -/
def decimalValue (s : String) : Nat :=
  s.data.foldl (fun a c => a * 10 + (c.toNat - '0'.toNat)) 0

/-- The octal value of a digit string (a leading `0` contributes
nothing). -/
def octalValue (s : String) : Nat :=
  s.data.foldl (fun a c => a * 8 + (c.toNat - '0'.toNat)) 0

/-! ### Parser state and helpers (src/parser/parser.go) -/

structure Parser where
  l : Lexer
  errors : List String
  curToken : Token
  peekToken : Token
deriving DecidableEq, Repr

/-- `Parser.nextToken`. -/
def Parser.nextToken (p : Parser) : Parser :=
  { p with
    curToken := p.peekToken
    peekToken := (Lexer.nextToken p.l).1
    l := (Lexer.nextToken p.l).2 }

/-- `parser.New` (parser.go 114-149): the prefix/infix registrations made
there are modelled by the dispatch conditionals inside `parseExpression`
and `parseExpressionLoop` below. -/
def parserNew (l : Lexer) : Parser :=
  Parser.nextToken (Parser.nextToken
    { l := l, errors := [], curToken := ⟨"", ""⟩, peekToken := ⟨"", ""⟩ })

/-- Binding-power ranks (the `iota` block, parser.go 47-57). -/
def LOWEST : Nat := 1
def EQUALS : Nat := 2
def LESSGREATER : Nat := 3
def SUM : Nat := 4
def PRODUCT : Nat := 5
def PREFIX : Nat := 6
def CALL : Nat := 7

/-- The `precedences` map (parser.go 59-69). -/
def precedences (t : String) : Option Nat :=
  if t = EQ then some EQUALS
  else if t = NOT_EQ then some EQUALS
  else if t = LT then some LESSGREATER
  else if t = GT then some LESSGREATER
  else if t = PLUS then some SUM
  else if t = MINUS then some SUM
  else if t = SLASH then some PRODUCT
  else if t = ASTERISK then some PRODUCT
  else if t = LPAREN then some CALL
  else none

def Parser.peekPrecedence (p : Parser) : Nat :=
  match precedences p.peekToken.type with
  | some v => v
  | none => LOWEST

def Parser.curPrecedence (p : Parser) : Nat :=
  match precedences p.curToken.type with
  | some v => v
  | none => LOWEST

def Parser.curTokenIs (p : Parser) (t : String) : Bool := p.curToken.type = t

def Parser.peekTokenIs (p : Parser) (t : String) : Bool := p.peekToken.type = t

/-- `Parser.PeekError` (parser.go 349-353). -/
def Parser.peekError (t : String) (p : Parser) : Parser :=
  { p with errors := p.errors ++
      ["expected next token to be " ++ t ++ ", got " ++ p.peekToken.type ++ " instead"] }

/-- `Parser.noPrefixParseFnError` (parser.go 405-408). -/
def Parser.noPrefixParseFnError (t : String) (p : Parser) : Parser :=
  { p with errors := p.errors ++ ["no prefix parse function for " ++ t ++ " found"] }

/-- `Parser.expectPeek` (parser.go 521-529). -/
def Parser.expectPeek (t : String) (p : Parser) : Bool × Parser :=
  if p.peekTokenIs t then (true, p.nextToken) else (false, p.peekError t)

/-- Go's `%q` of a digit lexeme (no characters needing escapes). -/
def goQuote (s : String) : String := "\"" ++ s ++ "\""

/-- `parseIdentifier` (parser.go 295-298). -/
def parseIdentifier (p : Parser) : Option Expression × Parser :=
  (some (.identifier p.curToken p.curToken.literal), p)

/-- `parseBoolean` (parser.go 300-302). -/
def parseBoolean (p : Parser) : Option Expression × Parser :=
  (some (.boolean p.curToken (p.curTokenIs TRUE)), p)

/-- `parseIntegerLiteral` (parser.go 492-509). -/
def parseIntegerLiteral (p : Parser) : Option Expression × Parser :=
  match goParseInt p.curToken.literal with
  | some v => (some (.integerLiteral p.curToken v), p)
  | none =>
    (none, { p with errors := p.errors ++
        ["could not parse " ++ goQuote p.curToken.literal ++ " as integer"] })

/-- Loop body of `parseFunctionParameters` (parser.go 216-221): note that
the token in parameter position is used through its literal only — its
kind is never inspected. -/
def parseFunctionParametersLoop :
    Nat → List Identifier → Parser → Option (List Identifier) × Parser
  | 0, _, p => (none, p)
  | fuel + 1, identifiers, p =>
    if p.peekTokenIs COMMA then
      let p₁ := p.nextToken.nextToken
      parseFunctionParametersLoop fuel
        (identifiers ++ [⟨p₁.curToken, p₁.curToken.literal⟩]) p₁
    else
      match Parser.expectPeek RPAREN p with
      | (true, p₁) => (some identifiers, p₁)
      | (false, p₁) => (none, p₁)

/-- `parseFunctionParameters` (parser.go 203-228). -/
def parseFunctionParameters (fuel : Nat) (p : Parser) :
    Option (List Identifier) × Parser :=
  if p.peekTokenIs RPAREN then (some [], p.nextToken)
  else
    let p₁ := p.nextToken
    parseFunctionParametersLoop fuel [⟨p₁.curToken, p₁.curToken.literal⟩] p₁

/-! ### The Pratt parser core (src/parser/parser.go)

Every `for` loop and every mutually recursive call is guarded by explicit
fuel; the fuel patterns never fire on the ample fuel the entry points
supply for the inputs considered in the theorems below. -/

mutual

/-- `parseExpression` (parser.go 411-446).  The leading conditional chain
is the `prefixParseFns` lookup with exactly the kinds registered in `New`
(parser.go 121-130); the final branch is the `prefix == nil` path. -/
def parseExpression : Nat → Nat → Parser → Option Expression × Parser
  | 0, _, p => (none, p)
  | fuel + 1, precedence, p =>
    if p.curToken.type = IDENT then
      match parseIdentifier p with
      | (e, q) => parseExpressionLoop fuel precedence e q
    else if p.curToken.type = INT then
      match parseIntegerLiteral p with
      | (e, q) => parseExpressionLoop fuel precedence e q
    else if p.curToken.type = BANG then
      match parsePrefixExpression fuel p with
      | (e, q) => parseExpressionLoop fuel precedence e q
    else if p.curToken.type = MINUS then
      match parsePrefixExpression fuel p with
      | (e, q) => parseExpressionLoop fuel precedence e q
    else if p.curToken.type = TRUE then
      match parseBoolean p with
      | (e, q) => parseExpressionLoop fuel precedence e q
    else if p.curToken.type = FALSE then
      match parseBoolean p with
      | (e, q) => parseExpressionLoop fuel precedence e q
    else if p.curToken.type = LPAREN then
      match parseGroupedExpression fuel p with
      | (e, q) => parseExpressionLoop fuel precedence e q
    else if p.curToken.type = IF then
      match parseIfExpression fuel p with
      | (e, q) => parseExpressionLoop fuel precedence e q
    else if p.curToken.type = FUNCTION then
      match parseFunctionLiteral fuel p with
      | (e, q) => parseExpressionLoop fuel precedence e q
    else (none, Parser.noPrefixParseFnError p.curToken.type p)

/-- The `for` loop of `parseExpression` (parser.go 431-441).  The inner
conditional chain is the `infixParseFns` lookup with exactly the kinds
registered in `New` (parser.go 133-142); an unregistered kind returns the
left operand (`infix == nil`). -/
def parseExpressionLoop :
    Nat → Nat → Option Expression → Parser → Option Expression × Parser
  | 0, _, leftExp, p => (leftExp, p)
  | fuel + 1, precedence, leftExp, p =>
    if p.peekTokenIs SEMICOLON = false ∧ precedence < p.peekPrecedence then
      if p.peekToken.type = PLUS ∨ p.peekToken.type = MINUS ∨
          p.peekToken.type = SLASH ∨ p.peekToken.type = ASTERISK ∨
          p.peekToken.type = EQ ∨ p.peekToken.type = NOT_EQ ∨
          p.peekToken.type = LT ∨ p.peekToken.type = GT then
        match parseInfixExpression fuel leftExp p.nextToken with
        | (e, q) => parseExpressionLoop fuel precedence e q
      else if p.peekToken.type = LPAREN then
        match parseCallExpression fuel leftExp p.nextToken with
        | (e, q) => parseExpressionLoop fuel precedence e q
      else (leftExp, p)
    else (leftExp, p)

/-- `parsePrefixExpression` (parser.go 304-321). -/
def parsePrefixExpression : Nat → Parser → Option Expression × Parser
  | 0, p => (none, p)
  | fuel + 1, p =>
    let tok := p.curToken
    let operator := p.curToken.literal
    let p₁ := p.nextToken
    match parseExpression fuel PREFIX p₁ with
    | (right, p₂) => (some (.prefixExpression tok operator right), p₂)

/-- `parseInfixExpression` (parser.go 323-342); the caller has already
advanced so that the operator is the current token. -/
def parseInfixExpression :
    Nat → Option Expression → Parser → Option Expression × Parser
  | 0, _, p => (none, p)
  | fuel + 1, left, p =>
    let tok := p.curToken
    let operator := p.curToken.literal
    let precedence := p.curPrecedence
    let p₁ := p.nextToken
    match parseExpression fuel precedence p₁ with
    | (right, p₂) => (some (.infixExpression tok left operator right), p₂)

/-- `parseGroupedExpression` (parser.go 283-293). -/
def parseGroupedExpression : Nat → Parser → Option Expression × Parser
  | 0, p => (none, p)
  | fuel + 1, p =>
    let p₁ := p.nextToken
    match parseExpression fuel LOWEST p₁ with
    | (exp, p₂) =>
      match Parser.expectPeek RPAREN p₂ with
      | (true, p₃) => (exp, p₃)
      | (false, p₃) => (none, p₃)

/-- `parseCallExpression` (parser.go 152-156). -/
def parseCallExpression :
    Nat → Option Expression → Parser → Option Expression × Parser
  | 0, _, p => (none, p)
  | fuel + 1, function, p =>
    let tok := p.curToken
    match parseCallArguments fuel p with
    | (args, p₁) => (some (.callExpression tok function args), p₁)

/-- `parseCallArguments` (parser.go 159-181), entry. -/
def parseCallArguments :
    Nat → Parser → Option (List (Option Expression)) × Parser
  | 0, p => (none, p)
  | fuel + 1, p =>
    if p.peekTokenIs RPAREN then (some [], p.nextToken)
    else
      let p₁ := p.nextToken
      match parseExpression fuel LOWEST p₁ with
      | (e, p₂) => parseCallArgumentsLoop fuel [e] p₂

/-- The comma loop and closing-parenthesis check of `parseCallArguments`
(parser.go 170-180). -/
def parseCallArgumentsLoop :
    Nat → List (Option Expression) → Parser →
    Option (List (Option Expression)) × Parser
  | 0, _, p => (none, p)
  | fuel + 1, args, p =>
    if p.peekTokenIs COMMA then
      let p₁ := p.nextToken.nextToken
      match parseExpression fuel LOWEST p₁ with
      | (e, p₂) => parseCallArgumentsLoop fuel (args ++ [e]) p₂
    else
      match Parser.expectPeek RPAREN p with
      | (true, p₁) => (some args, p₁)
      | (false, p₁) => (none, p₁)

/-- `parseIfExpression` (parser.go 231-262). -/
def parseIfExpression : Nat → Parser → Option Expression × Parser
  | 0, p => (none, p)
  | fuel + 1, p =>
    let tok := p.curToken
    match Parser.expectPeek LPAREN p with
    | (false, p₁) => (none, p₁)
    | (true, p₁) =>
      let p₂ := p₁.nextToken
      match parseExpression fuel LOWEST p₂ with
      | (condition, p₃) =>
        match Parser.expectPeek RPAREN p₃ with
        | (false, p₄) => (none, p₄)
        | (true, p₄) =>
          match Parser.expectPeek LBRACE p₄ with
          | (false, p₅) => (none, p₅)
          | (true, p₅) =>
            match parseBlockStatement fuel p₅ with
            | (consequence, p₆) =>
              if p₆.peekTokenIs ELSE then
                let p₇ := p₆.nextToken
                match Parser.expectPeek LBRACE p₇ with
                | (false, p₈) => (none, p₈)
                | (true, p₈) =>
                  match parseBlockStatement fuel p₈ with
                  | (alternative, p₉) =>
                    (some (.ifExpression tok condition (some consequence)
                      (some alternative)), p₉)
              else (some (.ifExpression tok condition (some consequence) none), p₆)

/-- `parseFunctionLiteral` (parser.go 184-200). -/
def parseFunctionLiteral : Nat → Parser → Option Expression × Parser
  | 0, p => (none, p)
  | fuel + 1, p =>
    let tok := p.curToken
    match Parser.expectPeek LPAREN p with
    | (false, p₁) => (none, p₁)
    | (true, p₁) =>
      match parseFunctionParameters fuel p₁ with
      | (params, p₂) =>
        match Parser.expectPeek LBRACE p₂ with
        | (false, p₃) => (none, p₃)
        | (true, p₃) =>
          match parseBlockStatement fuel p₃ with
          | (body, p₄) => (some (.functionLiteral tok params (some body)), p₄)

/-- `parseBlockStatement` (parser.go 265-280), entry. -/
def parseBlockStatement : Nat → Parser → BlockStatement × Parser
  | 0, p => (⟨p.curToken, []⟩, p)
  | fuel + 1, p =>
    let tok := p.curToken
    let p₁ := p.nextToken
    match parseBlockLoop fuel [] p₁ with
    | (stmts, p₂) => (⟨tok, stmts⟩, p₂)

/-- The statement loop of `parseBlockStatement` (parser.go 271-277). -/
def parseBlockLoop :
    Nat → List Statement → Parser → List Statement × Parser
  | 0, stmts, p => (stmts, p)
  | fuel + 1, stmts, p =>
    if p.curTokenIs RBRACE = false ∧ p.curTokenIs EOF = false then
      match parseStatement fuel p with
      | (stmt, p₁) =>
        parseBlockLoop fuel
          (match stmt with | some s => stmts ++ [s] | none => stmts) p₁.nextToken
    else (stmts, p)

/-- `parseStatement` (parser.go 377-386). -/
def parseStatement : Nat → Parser → Option Statement × Parser
  | 0, p => (none, p)
  | fuel + 1, p =>
    if p.curToken.type = LET then parseLetStatement fuel p
    else if p.curToken.type = RETURN then parseReturnStatement fuel p
    else
      match parseExpressionStatement fuel p with
      | (s, p₁) => (some s, p₁)

/-- `parseLetStatement` (parser.go 465-489; the complete-expression
stage). -/
def parseLetStatement : Nat → Parser → Option Statement × Parser
  | 0, p => (none, p)
  | fuel + 1, p =>
    let tok := p.curToken
    match Parser.expectPeek IDENT p with
    | (false, p₁) => (none, p₁)
    | (true, p₁) =>
      let name : Identifier := ⟨p₁.curToken, p₁.curToken.literal⟩
      match Parser.expectPeek ASSIGN p₁ with
      | (false, p₂) => (none, p₂)
      | (true, p₂) =>
        let p₃ := p₂.nextToken
        match parseExpression fuel LOWEST p₃ with
        | (value, p₄) =>
          let p₅ := if p₄.peekTokenIs SEMICOLON then p₄.nextToken else p₄
          (some (.letStatement tok (some name) value), p₅)

/-- `parseReturnStatement` (parser.go 449-462; the complete-expression
stage). -/
def parseReturnStatement : Nat → Parser → Option Statement × Parser
  | 0, p => (none, p)
  | fuel + 1, p =>
    let tok := p.curToken
    let p₁ := p.nextToken
    match parseExpression fuel LOWEST p₁ with
    | (returnValue, p₂) =>
      let p₃ := if p₂.peekTokenIs SEMICOLON then p₂.nextToken else p₂
      (some (.returnStatement tok returnValue), p₃)

/-- `parseExpressionStatement` (parser.go 389-403); always yields a
(non-nil) statement. -/
def parseExpressionStatement : Nat → Parser → Statement × Parser
  | 0, p => (.expressionStatement p.curToken none, p)
  | fuel + 1, p =>
    let tok := p.curToken
    match parseExpression fuel LOWEST p with
    | (e, p₁) =>
      let p₂ := if p₁.peekTokenIs SEMICOLON then p₁.nextToken else p₁
      (.expressionStatement tok e, p₂)

end

/-- The statement loop of `ParseProgram` (parser.go 365-371). -/
def parseProgramLoop : Nat → List Statement → Parser → List Statement × Parser
  | 0, stmts, p => (stmts, p)
  | fuel + 1, stmts, p =>
    if p.curToken.type = EOF then (stmts, p)
    else
      match parseStatement fuel p with
      | (stmt, p₁) =>
        parseProgramLoop fuel
          (match stmt with | some s => stmts ++ [s] | none => stmts) p₁.nextToken

/-- `ParseProgram` (parser.go 361-374); also returns the final parser so
that its accumulated diagnostics are observable. -/
def ParseProgram (fuel : Nat) (p : Parser) : Program × Parser :=
  match parseProgramLoop fuel [] p with
  | (stmts, p') => (⟨stmts⟩, p')

/-- Fuel that amply covers recursion depth and loop iterations for the
concrete inputs in the theorems below. -/
def ampleParseFuel (s : String) : Nat := s.length * 4 + 16

/-- Parse a source string end to end: lexer, parser construction and
`ParseProgram`. -/
def parseProgramOf (s : String) : Program × Parser :=
  ParseProgram (ampleParseFuel s) (parserNew (lexerNew s.data))

/-- The diagnostics of a full parse (`Parser.Errors`). -/
def parseDiagnostics (s : String) : List String := (parseProgramOf s).2.errors

/-- The canonical rendering of a full parse. -/
def parseRender (s : String) : String := programString (parseProgramOf s).1

/-- When the program is a single expression statement wrapping a call, its
argument slice; `[]` otherwise. -/
def firstCallArguments (prog : Program) : List (Option Expression) :=
  match prog.statements with
  | [Statement.expressionStatement _
      (some (Expression.callExpression _ _ (some args)))] => args
  | _ => []

/-- When the program is a single expression statement wrapping a call, its
callee; `none` otherwise. -/
def firstCallFunction (prog : Program) : Option Expression :=
  match prog.statements with
  | [Statement.expressionStatement _
      (some (Expression.callExpression _ function _))] => function
  | _ => none

/-- `lexInv` holds for every lexer state reachable from `lexerNew`: the
read cursor is one past the current position, and once the current
position is past the end, the current byte is the NUL sentinel. -/
def lexInv (l : Lexer) : Prop :=
  l.readPosition = l.position + 1 ∧
  (l.input.length ≤ l.position → l.ch = nulChar)

instance (l : Lexer) : Decidable (lexInv l) := by
  unfold lexInv
  infer_instance

/-- The claim's enumeration of recognized operator/delimiter characters. -/
def recognizedOperatorByte (c : Char) : Bool :=
  c = '=' || c = '+' || c = '-' || c = '!' || c = '*' || c = '/' ||
  c = '<' || c = '>' || c = ',' || c = ';' || c = '(' || c = ')' ||
  c = '\x7b' || c = '\x7d'

/-- The `LetStatement` produced by `let x = 5` (with or without `;`). -/
def letX5 : Statement :=
  .letStatement ⟨LET, "let"⟩ (some ⟨⟨IDENT, "x"⟩, "x"⟩)
    (some (.integerLiteral ⟨INT, "5"⟩ 5))

/-- The `ReturnStatement` produced by `return 5` (with or without `;`). -/
def return5 : Statement :=
  .returnStatement ⟨RETURN, "return"⟩ (some (.integerLiteral ⟨INT, "5"⟩ 5))

/-- The `ExpressionStatement` produced by `x + y` (with or without `;`). -/
def xPlusY : Statement :=
  .expressionStatement ⟨IDENT, "x"⟩
    (some (.infixExpression ⟨PLUS, "+"⟩
      (some (.identifier ⟨IDENT, "x"⟩ "x")) "+"
      (some (.identifier ⟨IDENT, "y"⟩ "y"))))

/-! Sanity checks of the embedding on concrete inputs. -/

example : (tokenizeF 20 (lexerNew "let x 5;".data)).map Token.type
    = [LET, IDENT, INT, SEMICOLON, EOF] := by decide

example : (tokenizeF 20 (lexerNew "a == b != c".data)).map Token.literal
    = ["a", "==", "b", "!=", "c", ""] := by decide

example : goParseInt "5" = some 5 := by decide
example : goParseInt "010" = some 8 := by decide
example : goParseInt "08" = none := by decide
example : goParseInt "9223372036854775807" = some 9223372036854775807 := by
  decide
example : goParseInt "9223372036854775808" = none := by decide

/-! ### Supporting lemmas about the lexer scans -/

theorem scanWhile_not (pred : Char → Bool) (fuel : Nat) (l : Lexer)
    (h : pred l.ch = false) : Lexer.scanWhile pred fuel l = l := by
  cases fuel <;> simp [Lexer.scanWhile, h]

/-! Supporting lemmas for the lexer's termination behaviour. -/

theorem readChar_input (l : Lexer) : (l.readChar).input = l.input := rfl

theorem readChar_position (l : Lexer) :
    (l.readChar).position = l.readPosition := rfl

/-- `readChar` establishes the invariant from any state. -/
theorem lexInv_readChar (l : Lexer) : lexInv l.readChar := by
  refine ⟨rfl, fun h => ?_⟩
  simp only [Lexer.readChar] at h ⊢
  rw [if_pos h]

theorem lexInv_lexerNew (s : List Char) : lexInv (lexerNew s) :=
  lexInv_readChar _

theorem scanWhile_input (pred : Char → Bool) (fuel : Nat) (l : Lexer) :
    (Lexer.scanWhile pred fuel l).input = l.input := by
  induction fuel generalizing l with
  | zero => rfl
  | succ fuel ih =>
    by_cases h : pred l.ch = true
    · simp only [Lexer.scanWhile, h, if_true]
      rw [ih]
      rfl
    · simp only [Bool.not_eq_true] at h
      simp [Lexer.scanWhile, h]

theorem scanWhile_inv (pred : Char → Bool) (fuel : Nat) (l : Lexer)
    (hinv : lexInv l) : lexInv (Lexer.scanWhile pred fuel l) := by
  induction fuel generalizing l with
  | zero => exact hinv
  | succ fuel ih =>
    by_cases h : pred l.ch = true
    · simp only [Lexer.scanWhile, h, if_true]
      exact ih l.readChar (lexInv_readChar l)
    · simp only [Bool.not_eq_true] at h
      simpa [Lexer.scanWhile, h] using hinv

theorem scanWhile_pos_mono (pred : Char → Bool) (fuel : Nat) (l : Lexer)
    (hinv : lexInv l) :
    l.position ≤ (Lexer.scanWhile pred fuel l).position := by
  induction fuel generalizing l with
  | zero => exact le_refl _
  | succ fuel ih =>
    by_cases h : pred l.ch = true
    · simp only [Lexer.scanWhile, h, if_true]
      have h1 := ih l.readChar (lexInv_readChar l)
      have h2 : (l.readChar).position = l.position + 1 := by
        rw [readChar_position, hinv.1]
      omega
    · simp only [Bool.not_eq_true] at h
      simp [Lexer.scanWhile, h]

theorem scanWhile_pos_strict (pred : Char → Bool) (fuel : Nat) (l : Lexer)
    (hinv : lexInv l) (hp : pred l.ch = true) (hf : 1 ≤ fuel) :
    l.position < (Lexer.scanWhile pred fuel l).position := by
  obtain ⟨fuel, rfl⟩ : ∃ k, fuel = k + 1 :=
    ⟨fuel - 1, by omega⟩
  simp only [Lexer.scanWhile, hp, if_true]
  have h1 := scanWhile_pos_mono pred fuel l.readChar (lexInv_readChar l)
  have h2 : (l.readChar).position = l.position + 1 := by
    rw [readChar_position, hinv.1]
  omega

/-- One step of fuel above the needed bound changes nothing: under the
invariant, a scan from position `pos` runs for at most
`input.length + 1 - pos` iterations (each iteration moves the position
forward by one, and past the end the byte is NUL, which no scan
predicate accepts). -/
theorem scanWhile_stable (pred : Char → Bool) (hnul : pred nulChar = false)
    (fuel : Nat) :
    ∀ l : Lexer, lexInv l → l.input.length + 1 ≤ fuel + l.position →
      Lexer.scanWhile pred (fuel + 1) l = Lexer.scanWhile pred fuel l := by
  induction fuel with
  | zero =>
    intro l hinv hb
    have hch : l.ch = nulChar := hinv.2 (by omega)
    have hp : pred l.ch = false := by rw [hch]; exact hnul
    simp [Lexer.scanWhile, hp]
  | succ fuel ih =>
    intro l hinv hb
    by_cases h : pred l.ch = true
    · simp only [Lexer.scanWhile, h, if_true]
      refine ih l.readChar (lexInv_readChar l) ?_
      rw [readChar_input, readChar_position, hinv.1]
      omega
    · simp only [Bool.not_eq_true] at h
      simp [Lexer.scanWhile, h]

/-- Any fuel at least `input.length + 2` gives the same scan as exactly
`input.length + 2`. -/
theorem scanWhile_ample (pred : Char → Bool) (hnul : pred nulChar = false)
    (l : Lexer) (hinv : lexInv l) (fuel : Nat)
    (hf : l.input.length + 2 ≤ fuel) :
    Lexer.scanWhile pred fuel l =
      Lexer.scanWhile pred (l.input.length + 2) l := by
  obtain ⟨k, rfl⟩ : ∃ k, fuel = (l.input.length + 2) + k :=
    ⟨fuel - (l.input.length + 2), by omega⟩
  clear hf
  induction k with
  | zero => rfl
  | succ k ih =>
    have hstep := scanWhile_stable pred hnul (l.input.length + 2 + k) l hinv
      (by omega)
    calc Lexer.scanWhile pred (l.input.length + 2 + (k + 1)) l
        = Lexer.scanWhile pred ((l.input.length + 2 + k) + 1) l := by
          ring_nf
      _ = Lexer.scanWhile pred (l.input.length + 2 + k) l := hstep
      _ = Lexer.scanWhile pred (l.input.length + 2) l := ih

/-- Extra fuel beyond `input.length + 2` never changes `NextToken`: the
fuelled lexer step is total in the only sense that matters. -/
theorem nextTokenF_stable (l : Lexer) (fuel : Nat) (hinv : lexInv l)
    (hf : l.input.length + 2 ≤ fuel) :
    Lexer.nextTokenF fuel l = Lexer.nextToken l := by
  have hwnul : isWhitespaceByte nulChar = false := rfl
  have hlnul : isLetter nulChar = false := rfl
  have hdnul : isDigit nulChar = false := rfl
  unfold Lexer.nextToken Lexer.nextTokenF
  simp only [Lexer.skipWhitespace]
  have hskip := scanWhile_ample isWhitespaceByte hwnul l hinv fuel hf
  rw [hskip]
  set l1 := Lexer.scanWhile isWhitespaceByte (l.input.length + 2) l with hl1
  have hinv1 : lexInv l1 := scanWhile_inv _ _ _ hinv
  have hin1 : l1.input = l.input := scanWhile_input _ _ _
  have hid := scanWhile_ample isLetter hlnul l1 hinv1 fuel
    (by rw [hin1]; exact hf)
  have hnum := scanWhile_ample isDigit hdnul l1 hinv1 fuel
    (by rw [hin1]; exact hf)
  rw [hin1] at hid hnum
  have hri : Lexer.readIdentifier fuel l1 =
      Lexer.readIdentifier (l.input.length + 2) l1 := by
    simp only [Lexer.readIdentifier, hid]
  have hrn : Lexer.readNumber fuel l1 =
      Lexer.readNumber (l.input.length + 2) l1 := by
    simp only [Lexer.readNumber, hnum]
  rw [hri, hrn]

/-- Every `NextToken` call from an invariant state preserves the
invariant, strictly advances the position, and leaves the input
untouched. -/
theorem nextToken_advance (l : Lexer) (hinv : lexInv l) :
    lexInv (Lexer.nextToken l).2 ∧
    l.position < (Lexer.nextToken l).2.position ∧
    (Lexer.nextToken l).2.input = l.input := by
  unfold Lexer.nextToken Lexer.nextTokenF
  set l1 := Lexer.scanWhile isWhitespaceByte (l.input.length + 2) l with hl1
  have hinv1 : lexInv l1 := scanWhile_inv _ _ _ hinv
  have hpos1 : l.position ≤ l1.position := scanWhile_pos_mono _ _ _ hinv
  have hin1 : l1.input = l.input := scanWhile_input _ _ _
  have hA : lexInv l1.readChar ∧ l.position < l1.readChar.position ∧
      l1.readChar.input = l.input := by
    refine ⟨lexInv_readChar _, ?_, by rw [readChar_input, hin1]⟩
    rw [readChar_position, hinv1.1]
    omega
  have hB : lexInv l1.readChar.readChar ∧
      l.position < l1.readChar.readChar.position ∧
      l1.readChar.readChar.input = l.input := by
    refine ⟨lexInv_readChar _, ?_, by rw [readChar_input, readChar_input, hin1]⟩
    have h2 : (l1.readChar).readPosition = l1.readPosition + 1 := rfl
    rw [readChar_position, h2, hinv1.1]
    omega
  have hC : ∀ pred : Char → Bool, pred l1.ch = true →
      lexInv (Lexer.scanWhile pred (l.input.length + 2) l1) ∧
      l.position < (Lexer.scanWhile pred (l.input.length + 2) l1).position ∧
      (Lexer.scanWhile pred (l.input.length + 2) l1).input = l.input := by
    intro pred hp
    refine ⟨scanWhile_inv _ _ _ hinv1, ?_, by rw [scanWhile_input]; exact hin1⟩
    exact lt_of_le_of_lt hpos1
      (scanWhile_pos_strict pred (l.input.length + 2) l1 hinv1 hp (by omega))
  simp only [Lexer.skipWhitespace]
  rw [← hl1]
  by_cases h1 : l1.ch = '='
  · rw [if_pos h1]
    by_cases hp1 : Lexer.peekChar l1 = '='
    · rw [if_pos hp1]; exact hB
    · rw [if_neg hp1]; exact hA
  rw [if_neg h1]
  by_cases h2 : l1.ch = ';'
  · rw [if_pos h2]; exact hA
  rw [if_neg h2]
  by_cases h3 : l1.ch = '('
  · rw [if_pos h3]; exact hA
  rw [if_neg h3]
  by_cases h4 : l1.ch = ')'
  · rw [if_pos h4]; exact hA
  rw [if_neg h4]
  by_cases h5 : l1.ch = '\x7b'
  · rw [if_pos h5]; exact hA
  rw [if_neg h5]
  by_cases h6 : l1.ch = '\x7d'
  · rw [if_pos h6]; exact hA
  rw [if_neg h6]
  by_cases h7 : l1.ch = ','
  · rw [if_pos h7]; exact hA
  rw [if_neg h7]
  by_cases h8 : l1.ch = '+'
  · rw [if_pos h8]; exact hA
  rw [if_neg h8]
  by_cases h9 : l1.ch = '-'
  · rw [if_pos h9]; exact hA
  rw [if_neg h9]
  by_cases h10 : l1.ch = '!'
  · rw [if_pos h10]
    by_cases hp2 : Lexer.peekChar l1 = '='
    · rw [if_pos hp2]; exact hB
    · rw [if_neg hp2]; exact hA
  rw [if_neg h10]
  by_cases h11 : l1.ch = '/'
  · rw [if_pos h11]; exact hA
  rw [if_neg h11]
  by_cases h12 : l1.ch = '*'
  · rw [if_pos h12]; exact hA
  rw [if_neg h12]
  by_cases h13 : l1.ch = '<'
  · rw [if_pos h13]; exact hA
  rw [if_neg h13]
  by_cases h14 : l1.ch = '>'
  · rw [if_pos h14]; exact hA
  rw [if_neg h14]
  by_cases h15 : l1.ch = nulChar
  · rw [if_pos h15]; exact hA
  rw [if_neg h15]
  by_cases h16 : isLetter l1.ch = true
  · rw [if_pos h16]; exact hC isLetter h16
  rw [if_neg h16]
  by_cases h17 : isDigit l1.ch = true
  · rw [if_pos h17]; exact hC isDigit h17
  rw [if_neg h17]
  exact hA

/-- Once the buffer is exhausted (position past the end, under the
invariant), `NextToken` emits the EOF token and the state remains
exhausted. -/
theorem nextToken_exhausted (l : Lexer) (hinv : lexInv l)
    (hend : l.input.length ≤ l.position) :
    Lexer.nextToken l = (⟨EOF, ""⟩, l.readChar) ∧
    lexInv l.readChar ∧ l.input.length ≤ (l.readChar).position ∧
    (l.readChar).input = l.input := by
  have hch : l.ch = nulChar := hinv.2 hend
  have hskip : ∀ fuel, Lexer.scanWhile isWhitespaceByte fuel l = l :=
    fun fuel => scanWhile_not _ fuel l (by rw [hch]; rfl)
  refine ⟨?_, lexInv_readChar _, ?_, rfl⟩
  · simp only [Lexer.nextToken, Lexer.nextTokenF, Lexer.skipWhitespace,
      hskip, hch]
    rw [if_neg (by decide), if_neg (by decide), if_neg (by decide),
      if_neg (by decide), if_neg (by decide), if_neg (by decide),
      if_neg (by decide), if_neg (by decide), if_neg (by decide),
      if_neg (by decide), if_neg (by decide), if_neg (by decide),
      if_neg (by decide), if_neg (by decide), if_pos trivial]
  · rw [readChar_position, hinv.1]
    omega

/-- From an invariant state with enough fuel, the token list up to the
first EOF contains exactly one EOF token. -/
theorem tokenizeF_eof_count (fuel : Nat) :
    ∀ l : Lexer, lexInv l → 1 ≤ fuel →
      l.input.length + 1 ≤ fuel + l.position →
      ((tokenizeF fuel l).filter (fun t => t.type = EOF)).length = 1 := by
  induction fuel with
  | zero => intro l _ h1 _; omega
  | succ fuel ih =>
    intro l hinv _ hb
    by_cases he : ((Lexer.nextToken l).1).type = EOF
    · simp [tokenizeF, he]
    · have hfuel1 : 1 ≤ fuel := by
        by_contra hf0
        have hend : l.input.length ≤ l.position := by omega
        have := (nextToken_exhausted l hinv hend).1
        rw [this] at he
        exact he rfl
      obtain ⟨hinv', hpos', hin'⟩ := nextToken_advance l hinv
      have hb' : (Lexer.nextToken l).2.input.length + 1 ≤
          fuel + (Lexer.nextToken l).2.position := by
        rw [hin']
        omega
      simp only [tokenizeF]
      rw [if_neg he]
      simp only [List.filter_cons]
      rw [if_neg (by simpa using he)]
      exact ih (Lexer.nextToken l).2 hinv' hfuel1 hb'

/-! Supporting lemmas for the `strconv.ParseInt` model on digit-only
lexemes. -/

theorem digitValue_digit (c : Char) (h0 : '0' ≤ c) (h9 : c ≤ '9') :
    digitValue c = some (c.toNat - '0'.toNat) := by
  simp [digitValue, h0, h9]

theorem digitsValAux_dec (cs : List Char) (acc : Nat)
    (h : ∀ c ∈ cs, '0' ≤ c ∧ c ≤ '9') :
    digitsValAux 10 cs acc =
      some (cs.foldl (fun a c => a * 10 + (c.toNat - '0'.toNat)) acc) := by
  induction cs generalizing acc with
  | nil => simp [digitsValAux]
  | cons c cs ih =>
    obtain ⟨h0, h9⟩ := h c (by simp)
    have h0' : 48 ≤ c.toNat := h0
    have h9' : c.toNat ≤ 57 := h9
    have hz0 : '0'.toNat = 48 := rfl
    have hlt : c.toNat - '0'.toNat < 10 := by omega
    simp only [digitsValAux, digitValue_digit c h0 h9]
    rw [if_pos hlt, List.foldl_cons]
    exact ih _ (fun x hx => h x (by simp [hx]))

theorem digitsValAux_oct (cs : List Char) (acc : Nat)
    (h : ∀ c ∈ cs, '0' ≤ c ∧ c ≤ '7') :
    digitsValAux 8 cs acc =
      some (cs.foldl (fun a c => a * 8 + (c.toNat - '0'.toNat)) acc) := by
  induction cs generalizing acc with
  | nil => simp [digitsValAux]
  | cons c cs ih =>
    obtain ⟨h0, h7⟩ := h c (by simp)
    have h9 : c ≤ '9' := le_trans h7 (by decide)
    have h0' : 48 ≤ c.toNat := h0
    have h7' : c.toNat ≤ 55 := h7
    have hz0 : '0'.toNat = 48 := rfl
    have hlt : c.toNat - '0'.toNat < 8 := by omega
    simp only [digitsValAux, digitValue_digit c h0 h9]
    rw [if_pos hlt, List.foldl_cons]
    exact ih _ (fun x hx => h x (by simp [hx]))

theorem digitsValAux_oct_bad (cs : List Char) (acc : Nat)
    (hdig : ∀ c ∈ cs, '0' ≤ c ∧ c ≤ '9')
    (h : ∃ c ∈ cs, ¬ c ≤ '7') :
    digitsValAux 8 cs acc = none := by
  induction cs generalizing acc with
  | nil => simp at h
  | cons c cs ih =>
    obtain ⟨h0, h9⟩ := hdig c (by simp)
    have h0' : 48 ≤ c.toNat := h0
    have h9' : c.toNat ≤ 57 := h9
    have hz0 : '0'.toNat = 48 := rfl
    by_cases h7 : c ≤ '7'
    · have h7' : c.toNat ≤ 55 := h7
      have hlt : c.toNat - '0'.toNat < 8 := by omega
      obtain ⟨d, hd, hd7⟩ := h
      rcases List.mem_cons.mp hd with hdc | hdcs
      · exact absurd (hdc ▸ h7) hd7
      · simp only [digitsValAux, digitValue_digit c h0 h9]
        rw [if_pos hlt]
        exact ih _ (fun x hx => hdig x (by simp [hx])) ⟨d, hdcs, hd7⟩
    · have h7' : 55 < c.toNat := by
        by_contra hle
        exact h7 (show c.toNat ≤ 55 by omega)
      have hge : ¬ (c.toNat - '0'.toNat < 8) := by omega
      simp only [digitsValAux, digitValue_digit c h0 h9]
      rw [if_neg hge]

/-- `goParseInt` on a digit lexeme with no leading zero (or the single
digit `0`) is the decimal value, when it fits in a signed 64-bit
integer. -/
theorem goParseInt_digits_dec (s : String) (c : Char) (t : List Char)
    (hs : s.data = c :: t)
    (hdig : ∀ x ∈ s.data, '0' ≤ x ∧ x ≤ '9')
    (hz : c = '0' → t = []) :
    goParseInt s =
      if decimalValue s ≤ int64MaxN then some ((decimalValue s : Int))
      else none := by
  obtain ⟨h0, h9⟩ := hdig c (by simp [hs])
  have h0' : 48 ≤ c.toNat := h0
  have h9' : c.toNat ≤ 57 := h9
  have hplus : ¬ (c = '+') := by
    intro he
    rw [he] at h0'
    exact absurd h0' (by decide)
  have hminus : ¬ (c = '-') := by
    intro he
    rw [he] at h0'
    exact absurd h0' (by decide)
  have hsign : goSign (c :: t) = (false, c :: t) := by
    simp [goSign, hplus, hminus]
  have hbase : goBase (c :: t) = (10, c :: t) := by
    cases t with
    | nil => simp [goBase]
    | cons c1 r =>
      have hcz : ¬ (c = '0') := by
        intro he
        exact absurd (hz he) (by simp)
      simp [goBase, hcz]
  have hval : digitsVal 10 (c :: t) = some (decimalValue s) := by
    simp only [digitsVal]
    rw [digitsValAux_dec (c :: t) 0 (by rw [← hs]; exact hdig)]
    simp [decimalValue, hs]
  have hpi : (2 : Int) ^ 63 = 9223372036854775808 := by norm_num
  have hpn : (2 : Nat) ^ 63 = 9223372036854775808 := by norm_num
  simp only [goParseInt, hs, hsign, hbase, hval]
  have hred : (if (false = true) then -((decimalValue s : Int))
      else ((decimalValue s : Int))) = ((decimalValue s : Int)) := by simp
  rw [hred]
  by_cases hle : decimalValue s ≤ int64MaxN
  · have hle' : decimalValue s ≤ 9223372036854775807 := by
      simpa [int64MaxN, hpn] using hle
    have h1 : ¬ ((decimalValue s : Int) < -(2 ^ 63) ∨
        2 ^ 63 - 1 < (decimalValue s : Int)) := by
      rw [hpi]
      omega
    rw [if_neg h1, if_pos hle]
  · have hle' : 9223372036854775807 < decimalValue s := by
      have := hle
      simp only [int64MaxN, hpn] at this
      omega
    have h1 : ((decimalValue s : Int) < -(2 ^ 63) ∨
        2 ^ 63 - 1 < (decimalValue s : Int)) := by
      rw [hpi]
      omega
    rw [if_pos h1, if_neg hle]

/-- `goParseInt` on a digit lexeme with a leading zero and at least two
characters takes the octal reading: it succeeds, with the octal value,
exactly when every digit is at most `7` and the octal value fits. -/
theorem goParseInt_digits_oct (s : String) (c1 : Char) (r : List Char)
    (hs : s.data = '0' :: c1 :: r)
    (hdig : ∀ x ∈ s.data, '0' ≤ x ∧ x ≤ '9') :
    goParseInt s =
      if (∀ x ∈ s.data, x ≤ '7') ∧ octalValue s ≤ int64MaxN then
        some ((octalValue s : Int))
      else none := by
  obtain ⟨h10, h19⟩ := hdig c1 (by simp [hs])
  have h10' : 48 ≤ c1.toNat := h10
  have h19' : c1.toNat ≤ 57 := h19
  have hsign : goSign ('0' :: c1 :: r) = (false, '0' :: c1 :: r) := by
    simp [goSign]
  have hnotx : ¬ (c1 = 'x' ∨ c1 = 'X') := by
    rintro (he | he) <;> rw [he] at h19' <;> exact absurd h19' (by decide)
  have hnoto : ¬ (c1 = 'o' ∨ c1 = 'O') := by
    rintro (he | he) <;> rw [he] at h19' <;> exact absurd h19' (by decide)
  have hnotb : ¬ (c1 = 'b' ∨ c1 = 'B') := by
    rintro (he | he) <;> rw [he] at h19' <;> exact absurd h19' (by decide)
  have hbase : goBase ('0' :: c1 :: r) = (8, '0' :: c1 :: r) := by
    simp [goBase, hnotx, hnoto, hnotb]
  by_cases hoct : ∀ x ∈ s.data, x ≤ '7'
  · rw [hs] at hoct
    have hval : digitsVal 8 ('0' :: c1 :: r) = some (octalValue s) := by
      simp only [digitsVal]
      rw [digitsValAux_oct ('0' :: c1 :: r) 0
        (fun x hx => ⟨(hdig x (by rw [hs]; exact hx)).1, hoct x hx⟩)]
      simp [octalValue, hs]
    have hpi : (2 : Int) ^ 63 = 9223372036854775808 := by norm_num
    have hpn : (2 : Nat) ^ 63 = 9223372036854775808 := by norm_num
    simp only [goParseInt, hs, hsign, hbase, hval]
    have hred : (if (false = true) then -((octalValue s : Int))
        else ((octalValue s : Int))) = ((octalValue s : Int)) := by simp
    rw [hred]
    by_cases hle : octalValue s ≤ int64MaxN
    · have hle' : octalValue s ≤ 9223372036854775807 := by
        simpa [int64MaxN, hpn] using hle
      have h1 : ¬ ((octalValue s : Int) < -(2 ^ 63) ∨
          2 ^ 63 - 1 < (octalValue s : Int)) := by
        rw [hpi]
        omega
      rw [if_neg h1, if_pos ⟨hoct, hle⟩]
    · have hle' : 9223372036854775807 < octalValue s := by
        have := hle
        simp only [int64MaxN, hpn] at this
        omega
      have h1 : ((octalValue s : Int) < -(2 ^ 63) ∨
          2 ^ 63 - 1 < (octalValue s : Int)) := by
        rw [hpi]
        omega
      rw [if_pos h1, if_neg (fun hc => hle hc.2)]
  · rw [hs] at hoct
    have hex : ∃ x ∈ '0' :: c1 :: r, ¬ x ≤ '7' := by
      push_neg at hoct
      obtain ⟨x, hx, hx7⟩ := hoct
      exact ⟨x, hx, not_le.mpr hx7⟩
    have hval : digitsVal 8 ('0' :: c1 :: r) = none := by
      simp only [digitsVal]
      exact digitsValAux_oct_bad ('0' :: c1 :: r) 0
        (by rw [← hs]; exact hdig) hex
    simp only [goParseInt, hs, hsign, hbase, hval]
    rw [if_neg (fun hc => hoct hc.1)]

/-! Supporting lemmas about `expectPeek`. -/

theorem expectPeek_pos (t : String) (p : Parser) (h : p.peekToken.type = t) :
    Parser.expectPeek t p = (true, p.nextToken) := by
  simp [Parser.expectPeek, Parser.peekTokenIs, h]

theorem expectPeek_neg (t : String) (p : Parser) (h : p.peekToken.type ≠ t) :
    Parser.expectPeek t p = (false, Parser.peekError t p) := by
  simp [Parser.expectPeek, Parser.peekTokenIs, h]

/-- Possible error outcomes of the parameter-list loop: either it touches
no diagnostics at all, or it appends exactly the `expectPeek RPAREN`
diagnostic — no parameter-kind check exists. -/
theorem parseFunctionParametersLoop_errors (fuel : Nat)
    (ids : List Identifier) (p : Parser) :
    (parseFunctionParametersLoop fuel ids p).2.errors = p.errors ∨
    ∃ actual, (parseFunctionParametersLoop fuel ids p).2.errors =
      p.errors ++ ["expected next token to be " ++ RPAREN ++ ", got " ++
        actual ++ " instead"] := by
  induction fuel generalizing ids p with
  | zero => exact Or.inl rfl
  | succ fuel ih =>
    by_cases hc : p.peekTokenIs COMMA = true
    · simp only [parseFunctionParametersLoop, hc, if_true]
      exact ih _ _
    · simp only [Bool.not_eq_true] at hc
      by_cases hr : p.peekToken.type = RPAREN
      · simp only [parseFunctionParametersLoop, hc, Bool.false_eq_true,
          if_false, expectPeek_pos RPAREN p hr]
        exact Or.inl rfl
      · simp only [parseFunctionParametersLoop, hc, Bool.false_eq_true,
          if_false, expectPeek_neg RPAREN p hr]
        exact Or.inr ⟨p.peekToken.type, rfl⟩

/-! ### Claim theorems -/

/-- Claim C1: for the inputs `a + b * c`, `-a * b`, `a + b + c` and
`3 > 5 == false`, `ParseProgram` records zero diagnostics and the
canonical rendering of the resulting program is `(a + (b * c))`,
`((-a) * b)`, `((a + b) + c)` and `((3 > 5) == false)` respectively. -/
theorem claim_C1 :
    parseDiagnostics "a + b * c" = [] ∧
    parseRender "a + b * c" = "(a + (b * c))" ∧
    parseDiagnostics "-a * b" = [] ∧
    parseRender "-a * b" = "((-a) * b)" ∧
    parseDiagnostics "a + b + c" = [] ∧
    parseRender "a + b + c" = "((a + b) + c)" ∧
    parseDiagnostics "3 > 5 == false" = [] ∧
    parseRender "3 > 5 == false" = "((3 > 5) == false)" :=
  ⟨rfl, rfl, rfl, rfl, rfl, rfl, rfl, rfl⟩

/-- Claim C5: parsing `let x 5;` yields exactly one diagnostic, which
names the expected assignment token kind (`=`) and the kind actually
found (`INT`); the parse still runs to the end of the input (the final
current token is EOF) and the remainder of the input is still parsed
(the `5` becomes an expression statement). -/
theorem claim_C5 :
    parseDiagnostics "let x 5;" =
      ["expected next token to be " ++ ASSIGN ++ ", got " ++ INT ++ " instead"] ∧
    (parseProgramOf "let x 5;").2.curToken.type = EOF ∧
    (parseProgramOf "let x 5;").1.statements =
      [Statement.expressionStatement ⟨INT, "5"⟩
        (some (Expression.integerLiteral ⟨INT, "5"⟩ 5))] :=
  ⟨rfl, rfl, rfl⟩

/-- Claim C6: every `NextToken` call terminates and returns a token — in
the fuelled embedding, any fuel at least `input.length + 2` gives the one
fixed result, so the recursion is total on every invariant-reachable
state; for every input the token sequence up to the first EOF contains
exactly one EOF token; and once the buffer is exhausted every further
`NextToken` call returns the EOF token again, from a state that is again
exhausted (EOF is stable). -/
theorem claim_C6 :
    (∀ (l : Lexer) (fuel : Nat), lexInv l → l.input.length + 2 ≤ fuel →
      Lexer.nextTokenF fuel l = Lexer.nextToken l) ∧
    (∀ s : List Char,
      ((tokenizeF (s.length + 2) (lexerNew s)).filter
        (fun t => t.type = EOF)).length = 1) ∧
    (∀ l : Lexer, lexInv l → l.input.length ≤ l.position →
      (Lexer.nextToken l).1 = ⟨EOF, ""⟩ ∧
      lexInv (Lexer.nextToken l).2 ∧
      (Lexer.nextToken l).2.input.length ≤ (Lexer.nextToken l).2.position) := by
  refine ⟨nextTokenF_stable, ?_, ?_⟩
  · intro s
    refine tokenizeF_eof_count (s.length + 2) (lexerNew s)
      (lexInv_lexerNew s) (by omega) ?_
    have h1 : (lexerNew s).input = s := rfl
    have h2 : (lexerNew s).position = 0 := rfl
    rw [h1, h2]
    omega
  · intro l hinv hend
    obtain ⟨heq, hinv', hpos', hin'⟩ := nextToken_exhausted l hinv hend
    refine ⟨by rw [heq], by rw [heq]; exact hinv', ?_⟩
    rw [heq]
    rw [show (l.readChar).input = l.input from readChar_input l]
    exact hpos'

/-- Claim C6, witness: the stability conjunct at the two-byte input `ab`
with fuel `10`, the exactly-one-EOF conjunct at the input `x`, and the
EOF-stability conjunct at a concrete exhausted state. -/
theorem claim_C6_witness :
    lexInv (lexerNew ['a', 'b']) ∧
    Lexer.nextTokenF 10 (lexerNew ['a', 'b']) =
      Lexer.nextToken (lexerNew ['a', 'b']) ∧
    ((tokenizeF 3 (lexerNew ['x'])).filter
      (fun t => t.type = EOF)).length = 1 ∧
    (Lexer.nextToken ⟨['a'], 1, 2, nulChar⟩).1 = ⟨EOF, ""⟩ :=
  ⟨by decide,
   claim_C6.1 (lexerNew ['a', 'b']) 10 (by decide) (by decide),
   claim_C6.2.1 ['x'],
   (claim_C6.2.2 ⟨['a'], 1, 2, nulChar⟩ (by decide) (by decide)).1⟩

/-- Claim C7: `add(1, 2 * 3, 4 + 5)` parses, with zero diagnostics, to a
single expression statement wrapping a `CallExpression` whose callee is
the identifier `add` and whose arguments render, in order, as `1`,
`(2 * 3)` and `(4 + 5)`. -/
theorem claim_C7 :
    parseDiagnostics "add(1, 2 * 3, 4 + 5)" = [] ∧
    (parseProgramOf "add(1, 2 * 3, 4 + 5)").1.statements =
      [Statement.expressionStatement ⟨IDENT, "add"⟩
        (some (Expression.callExpression ⟨LPAREN, "("⟩
          (some (Expression.identifier ⟨IDENT, "add"⟩ "add"))
          (some [some (Expression.integerLiteral ⟨INT, "1"⟩ 1),
                 some (Expression.infixExpression ⟨ASTERISK, "*"⟩
                   (some (Expression.integerLiteral ⟨INT, "2"⟩ 2)) "*"
                   (some (Expression.integerLiteral ⟨INT, "3"⟩ 3))),
                 some (Expression.infixExpression ⟨PLUS, "+"⟩
                   (some (Expression.integerLiteral ⟨INT, "4"⟩ 4)) "+"
                   (some (Expression.integerLiteral ⟨INT, "5"⟩ 5)))])))] ∧
    firstCallFunction (parseProgramOf "add(1, 2 * 3, 4 + 5)").1 =
      some (Expression.identifier ⟨IDENT, "add"⟩ "add") ∧
    (firstCallArguments (parseProgramOf "add(1, 2 * 3, 4 + 5)").1).map optExprString =
      ["1", "(2 * 3)", "(4 + 5)"] :=
  ⟨rfl, rfl, rfl, rfl⟩

/-- Claim C2, counterexample: when the closing `)` of a call argument
list is missing (input `add(1, 2`), the parser records the expected/actual
diagnostic and `parseCallArguments` returns the nil slice, but the
enclosing construct does NOT yield "no node": `parseCallExpression` still
returns the `CallExpression` (with a nil argument slice), and it appears
in the program. -/
theorem claim_C2_counterexample :
    parseDiagnostics "add(1, 2" =
      ["expected next token to be ), got EOF instead"] ∧
    (parseProgramOf "add(1, 2").1.statements =
      [Statement.expressionStatement ⟨IDENT, "add"⟩
        (some (Expression.callExpression ⟨LPAREN, "("⟩
          (some (Expression.identifier ⟨IDENT, "add"⟩ "add")) none))] :=
  ⟨rfl, rfl⟩

/-- Claim C2, amended: every required-token check that fails records,
via `expectPeek`/`PeekError`, a diagnostic naming the expected and actual
token kinds, and the handler containing the check returns nil — the `=`
of a let statement, the `)` of a grouped expression, the `(`, `)` and `{`
of an if expression, and the `(` and `{` of a function literal all abort
their construct with no node; the `)` check of a call argument list makes
`parseCallArguments` return the nil slice, but `parseCallExpression`
still yields the `CallExpression` node (with nil arguments).  In every
case the surrounding statement loop continues, advancing one token,
rather than aborting the parse. -/
theorem claim_C2_amended :
    (∀ (p : Parser) (t : String), p.peekToken.type ≠ t →
      Parser.expectPeek t p = (false, Parser.peekError t p) ∧
      (Parser.peekError t p).errors = p.errors ++
        ["expected next token to be " ++ t ++ ", got " ++
          p.peekToken.type ++ " instead"]) ∧
    (∀ (fuel : Nat) (p : Parser), p.peekToken.type = IDENT →
      (p.nextToken).peekToken.type ≠ ASSIGN →
      parseLetStatement (fuel + 1) p =
        (none, Parser.peekError ASSIGN p.nextToken)) ∧
    (∀ (fuel : Nat) (p : Parser) (e : Option Expression) (p₂ : Parser),
      parseExpression fuel LOWEST p.nextToken = (e, p₂) →
      p₂.peekToken.type ≠ RPAREN →
      parseGroupedExpression (fuel + 1) p =
        (none, Parser.peekError RPAREN p₂)) ∧
    (∀ (fuel : Nat) (args : List (Option Expression)) (p : Parser),
      p.peekToken.type ≠ COMMA → p.peekToken.type ≠ RPAREN →
      parseCallArgumentsLoop (fuel + 1) args p =
        (none, Parser.peekError RPAREN p)) ∧
    (∀ (fuel : Nat) (f : Option Expression) (p : Parser)
      (args : Option (List (Option Expression))) (p₁ : Parser),
      parseCallArguments fuel p = (args, p₁) →
      parseCallExpression (fuel + 1) f p =
        (some (Expression.callExpression p.curToken f args), p₁)) ∧
    (∀ (fuel : Nat) (p : Parser), p.peekToken.type ≠ LPAREN →
      parseIfExpression (fuel + 1) p =
        (none, Parser.peekError LPAREN p)) ∧
    (∀ (fuel : Nat) (p : Parser) (c : Option Expression) (p₃ : Parser),
      p.peekToken.type = LPAREN →
      parseExpression fuel LOWEST ((p.nextToken).nextToken) = (c, p₃) →
      p₃.peekToken.type ≠ RPAREN →
      parseIfExpression (fuel + 1) p =
        (none, Parser.peekError RPAREN p₃)) ∧
    (∀ (fuel : Nat) (p : Parser) (c : Option Expression) (p₃ : Parser),
      p.peekToken.type = LPAREN →
      parseExpression fuel LOWEST ((p.nextToken).nextToken) = (c, p₃) →
      p₃.peekToken.type = RPAREN →
      (p₃.nextToken).peekToken.type ≠ LBRACE →
      parseIfExpression (fuel + 1) p =
        (none, Parser.peekError LBRACE p₃.nextToken)) ∧
    (∀ (fuel : Nat) (p : Parser), p.peekToken.type ≠ LPAREN →
      parseFunctionLiteral (fuel + 1) p =
        (none, Parser.peekError LPAREN p)) ∧
    (∀ (fuel : Nat) (p : Parser) (params : Option (List Identifier))
      (p₂ : Parser),
      p.peekToken.type = LPAREN →
      parseFunctionParameters fuel p.nextToken = (params, p₂) →
      p₂.peekToken.type ≠ LBRACE →
      parseFunctionLiteral (fuel + 1) p =
        (none, Parser.peekError LBRACE p₂)) ∧
    (∀ (fuel : Nat) (p : Parser) (p₁ : Parser), p.curToken.type ≠ EOF →
      parseStatement fuel p = (none, p₁) →
      ∀ acc : List Statement,
        parseProgramLoop (fuel + 1) acc p =
          parseProgramLoop fuel acc p₁.nextToken) := by
  refine ⟨?_, ?_, ?_, ?_, ?_, ?_, ?_, ?_, ?_, ?_, ?_⟩
  · intro p t h
    exact ⟨expectPeek_neg t p h, rfl⟩
  · intro fuel p h1 h2
    simp only [parseLetStatement, expectPeek_pos IDENT p h1,
      expectPeek_neg ASSIGN p.nextToken h2]
  · intro fuel p e p₂ hpe h2
    simp only [parseGroupedExpression, hpe, expectPeek_neg RPAREN p₂ h2]
  · intro fuel args p h1 h2
    simp [parseCallArgumentsLoop, Parser.peekTokenIs, h1,
      expectPeek_neg RPAREN p h2]
  · intro fuel f p args p₁ hargs
    simp only [parseCallExpression, hargs]
  · intro fuel p h
    simp only [parseIfExpression, expectPeek_neg LPAREN p h]
  · intro fuel p c p₃ h1 hpe h2
    simp only [parseIfExpression, expectPeek_pos LPAREN p h1, hpe,
      expectPeek_neg RPAREN p₃ h2]
  · intro fuel p c p₃ h1 hpe h2 h3
    simp only [parseIfExpression, expectPeek_pos LPAREN p h1, hpe,
      expectPeek_pos RPAREN p₃ h2, expectPeek_neg LBRACE p₃.nextToken h3]
  · intro fuel p h
    simp only [parseFunctionLiteral, expectPeek_neg LPAREN p h]
  · intro fuel p params p₂ h1 hparams h2
    simp only [parseFunctionLiteral, expectPeek_pos LPAREN p h1, hparams,
      expectPeek_neg LBRACE p₂ h2]
  · intro fuel p p₁ hcur hstmt acc
    simp only [parseProgramLoop, hstmt, if_neg hcur]

/-- Claim C2, witness for the amended theorem at two concrete failure
states: the missing `=` of `let x 5;` and the missing `(` of `if x`. -/
theorem claim_C2_witness :
    parseLetStatement 9 (parserNew (lexerNew "let x 5;".data)) =
      (none, Parser.peekError ASSIGN
        (parserNew (lexerNew "let x 5;".data)).nextToken) ∧
    parseIfExpression 9 (parserNew (lexerNew "if x".data)) =
      (none, Parser.peekError LPAREN (parserNew (lexerNew "if x".data))) :=
  ⟨claim_C2_amended.2.1 8 (parserNew (lexerNew "let x 5;".data))
      (by decide) (by decide),
   claim_C2_amended.2.2.2.2.2.1 8 (parserNew (lexerNew "if x".data))
      (by decide)⟩

/-- Claim C3, counterexample: `parseIntegerLiteral` uses base-`0`
conversion, so the digit lexeme `08` — whose decimal value `8` fits a
signed 64-bit integer — is rejected with a diagnostic (invalid octal),
and the digit lexeme `010` — whose decimal value is `10` — is accepted
with no diagnostic but with `Value = 8`, not the decimal value. -/
theorem claim_C3_counterexample :
    decimalValue "08" = 8 ∧ (8 : Nat) ≤ int64MaxN ∧
    parseDiagnostics "08" = ["could not parse \"08\" as integer"] ∧
    (parseProgramOf "08").1.statements =
      [Statement.expressionStatement ⟨INT, "08"⟩ none] ∧
    decimalValue "010" = 10 ∧
    parseDiagnostics "010" = [] ∧
    (parseProgramOf "010").1.statements =
      [Statement.expressionStatement ⟨INT, "010"⟩
        (some (Expression.integerLiteral ⟨INT, "010"⟩ 8))] :=
  ⟨rfl, by decide, rfl, rfl, rfl, rfl, rfl⟩

/-- Claim C3, amended: `parseIntegerLiteral` converts the digit lexeme
with Go's base-`0` rules.  A lexeme without a leading zero (or the single
digit `0`) yields an `IntegerLiteral` whose value is the decimal value
when that value fits in a signed 64-bit integer, and records one
diagnostic (yielding no node) otherwise; a lexeme of two or more digits
starting with `0` is read as octal: it yields the octal value when every
digit is at most `7` and the value fits, and records one diagnostic
(yielding no node) otherwise. -/
theorem claim_C3_amended :
    (∀ (p : Parser) (s : String), p.curToken.literal = s →
      (∀ x ∈ s.data, '0' ≤ x ∧ x ≤ '9') →
      s.data ≠ [] →
      (s.data.head? = some '0' → s.data.length = 1) →
      ((decimalValue s ≤ int64MaxN →
        parseIntegerLiteral p =
          (some (Expression.integerLiteral p.curToken ((decimalValue s : Int))),
           p)) ∧
       (int64MaxN < decimalValue s →
        parseIntegerLiteral p =
          (none, { p with errors := p.errors ++
            ["could not parse " ++ goQuote s ++ " as integer"] })))) ∧
    (∀ (p : Parser) (s : String), p.curToken.literal = s →
      (∀ x ∈ s.data, '0' ≤ x ∧ x ≤ '9') →
      s.data.head? = some '0' → 2 ≤ s.data.length →
      (((∀ x ∈ s.data, x ≤ '7') ∧ octalValue s ≤ int64MaxN →
        parseIntegerLiteral p =
          (some (Expression.integerLiteral p.curToken ((octalValue s : Int))),
           p)) ∧
       (¬ ((∀ x ∈ s.data, x ≤ '7') ∧ octalValue s ≤ int64MaxN) →
        parseIntegerLiteral p =
          (none, { p with errors := p.errors ++
            ["could not parse " ++ goQuote s ++ " as integer"] })))) := by
  constructor
  · intro p s hcur hdig hne hz
    obtain ⟨c, t, hs⟩ : ∃ c t, s.data = c :: t := by
      cases hcs : s.data with
      | nil => exact absurd hcs hne
      | cons c t => exact ⟨c, t, rfl⟩
    have hz' : c = '0' → t = [] := by
      intro he
      have h1 := hz (by rw [hs, he]; rfl)
      rw [hs] at h1
      simpa using h1
    have hgp := goParseInt_digits_dec s c t hs hdig hz'
    constructor
    · intro hle
      simp only [parseIntegerLiteral, hcur, hgp, if_pos hle]
    · intro hgt
      have hle : ¬ decimalValue s ≤ int64MaxN := by omega
      simp only [parseIntegerLiteral, hcur, hgp, if_neg hle]
  · intro p s hcur hdig hhead hlen
    obtain ⟨c1, r, hs⟩ : ∃ c1 r, s.data = '0' :: c1 :: r := by
      cases hcs : s.data with
      | nil => rw [hcs] at hhead; exact absurd hhead (by simp)
      | cons c t =>
        have hc0 : c = '0' := by
          rw [hcs] at hhead
          simpa using hhead
        cases hct : t with
        | nil => rw [hcs, hct] at hlen; exact absurd hlen (by simp)
        | cons c1 r => exact ⟨c1, r, by rw [hc0]⟩
    have hgp := goParseInt_digits_oct s c1 r hs hdig
    constructor
    · intro hok
      simp only [parseIntegerLiteral, hcur, hgp, if_pos hok]
    · intro hbad
      simp only [parseIntegerLiteral, hcur, hgp, if_neg hbad]

/-- Claim C3, witness for the amended theorem: the lexeme `12` yields
`IntegerLiteral 12` with no diagnostic, and the lexeme `08` yields no
node and one diagnostic. -/
theorem claim_C3_witness :
    parseIntegerLiteral ⟨lexerNew [], [], ⟨INT, "12"⟩, ⟨EOF, ""⟩⟩ =
      (some (Expression.integerLiteral ⟨INT, "12"⟩ (12 : Int)),
       ⟨lexerNew [], [], ⟨INT, "12"⟩, ⟨EOF, ""⟩⟩) ∧
    parseIntegerLiteral ⟨lexerNew [], [], ⟨INT, "08"⟩, ⟨EOF, ""⟩⟩ =
      (none, ⟨lexerNew [], ["could not parse \"08\" as integer"],
        ⟨INT, "08"⟩, ⟨EOF, ""⟩⟩) := by
  constructor
  · exact (claim_C3_amended.1 ⟨lexerNew [], [], ⟨INT, "12"⟩, ⟨EOF, ""⟩⟩ "12"
      rfl (by decide) (by decide) (by decide)).1 (by decide)
  · exact (claim_C3_amended.2 ⟨lexerNew [], [], ⟨INT, "08"⟩, ⟨EOF, ""⟩⟩ "08"
      rfl (by decide) (by decide) (by decide)).2 (by decide)

/-- Claim C4, counterexample: the NUL byte `0x00` is not whitespace, not a
recognized operator/delimiter, not a letter or underscore and not a digit,
yet `NextToken` on an input consisting of that byte returns the EOF token
(empty literal), not the ILLEGAL token carrying the byte — the lexer
treats NUL as its end-of-input sentinel. -/
theorem claim_C4_counterexample :
    isWhitespaceByte nulChar = false ∧
    recognizedOperatorByte nulChar = false ∧
    isLetter nulChar = false ∧
    isDigit nulChar = false ∧
    (Lexer.nextToken (lexerNew [nulChar])).1 = ⟨EOF, ""⟩ ∧
    EOF ≠ ILLEGAL ∧
    (Lexer.nextToken (lexerNew [nulChar])).1.literal ≠ String.mk [nulChar] := by
  refine ⟨rfl, rfl, rfl, rfl, rfl, by decide, by decide⟩

/-- Claim C4, amended: for every byte that is not whitespace, not a
recognized operator/delimiter character, not an ASCII letter or
underscore, not an ASCII digit, and also not the NUL byte `0x00` (which
the lexer treats as its end-of-input sentinel), `NextToken` returns the
ILLEGAL token carrying that single byte as its literal. -/
theorem claim_C4_amended (l : Lexer)
    (hw : isWhitespaceByte l.ch = false)
    (hop : recognizedOperatorByte l.ch = false)
    (hl : isLetter l.ch = false)
    (hd : isDigit l.ch = false)
    (hn : l.ch ≠ nulChar) :
    Lexer.nextToken l = (newToken ILLEGAL l.ch, l.readChar) := by
  obtain ⟨h1, h2, h3, h4, h5, h6, h7, h8, h9, h10, h11, h12, h13, h14⟩ :
      l.ch ≠ '=' ∧ l.ch ≠ '+' ∧ l.ch ≠ '-' ∧ l.ch ≠ '!' ∧ l.ch ≠ '*' ∧
      l.ch ≠ '/' ∧ l.ch ≠ '<' ∧ l.ch ≠ '>' ∧ l.ch ≠ ',' ∧ l.ch ≠ ';' ∧
      l.ch ≠ '(' ∧ l.ch ≠ ')' ∧ l.ch ≠ '\x7b' ∧ l.ch ≠ '\x7d' := by
    have := hop
    simp only [recognizedOperatorByte, Bool.or_eq_false_iff,
      decide_eq_false_iff_not] at this
    tauto
  simp only [Lexer.nextToken, Lexer.nextTokenF, Lexer.skipWhitespace,
    scanWhile_not _ _ _ hw]
  simp [h1, h2, h3, h4, h5, h6, h7, h8, h9, h10, h11, h12, h13, h14, hl, hd, hn]

/-- Claim C4, witness for the amended theorem at the byte `@`. -/
theorem claim_C4_witness :
    Lexer.nextToken (lexerNew ['@']) =
      (newToken ILLEGAL '@', (lexerNew ['@']).readChar) :=
  claim_C4_amended (lexerNew ['@']) (by decide) (by decide) (by decide)
    (by decide) (by decide)

/-- Claim C8: the parameter positions of a function literal accept tokens
of any kind.  `parseFunctionParameters` can only leave the diagnostics
untouched or append the missing-`)` diagnostic (never a parameter-kind
diagnostic); whenever the list is non-empty it builds its first
`Identifier` from the literal of whatever token follows `(`, with no
condition on that token's kind; and concretely `fn(1, true) {}` parses
with zero diagnostics to a `FunctionLiteral` whose parameter literals are
`1` and `true`. -/
theorem claim_C8 :
    (∀ (fuel : Nat) (p : Parser),
      (parseFunctionParameters fuel p).2.errors = p.errors ∨
      ∃ actual, (parseFunctionParameters fuel p).2.errors =
        p.errors ++ ["expected next token to be " ++ RPAREN ++ ", got " ++
          actual ++ " instead"]) ∧
    (∀ (fuel : Nat) (p : Parser), p.peekTokenIs RPAREN = false →
      parseFunctionParameters fuel p =
        parseFunctionParametersLoop fuel
          [⟨(p.nextToken).curToken, (p.nextToken).curToken.literal⟩]
          p.nextToken) ∧
    parseDiagnostics "fn(1, true) \x7b\x7d" = [] ∧
    (parseProgramOf "fn(1, true) \x7b\x7d").1.statements =
      [Statement.expressionStatement ⟨FUNCTION, "fn"⟩
        (some (Expression.functionLiteral ⟨FUNCTION, "fn"⟩
          (some [⟨⟨INT, "1"⟩, "1"⟩, ⟨⟨TRUE, "true"⟩, "true"⟩])
          (some (BlockStatement.mk ⟨LBRACE, "\x7b"⟩ []))))] := by
  refine ⟨?_, ?_, rfl, rfl⟩
  · intro fuel p
    by_cases hr : p.peekTokenIs RPAREN = true
    · refine Or.inl ?_
      simp only [parseFunctionParameters, hr, if_true]
      rfl
    · simp only [Bool.not_eq_true] at hr
      simp only [parseFunctionParameters, hr, Bool.false_eq_true, if_false]
      exact parseFunctionParametersLoop_errors fuel _ p.nextToken
  · intro fuel p h
    simp [parseFunctionParameters, h]

/-- Claim C8, witness: the second conjunct applied at the concrete state
reached after `(` in `fn(1, true) {}`, whose peek token is the INT `1`. -/
theorem claim_C8_witness :
    parseFunctionParameters 5 (parserNew (lexerNew "(1, true)".data)) =
      parseFunctionParametersLoop 5
        [⟨((parserNew (lexerNew "(1, true)".data)).nextToken).curToken,
          ((parserNew (lexerNew "(1, true)".data)).nextToken).curToken.literal⟩]
        (parserNew (lexerNew "(1, true)".data)).nextToken :=
  claim_C8.2.1 5 (parserNew (lexerNew "(1, true)".data)) (by decide)

theorem parse_letX5_noSemi :
    (parseProgramOf "let x = 5").1.statements = [letX5] ∧
    parseDiagnostics "let x = 5" = [] := ⟨rfl, rfl⟩

theorem parse_letX5_semi :
    (parseProgramOf "let x = 5;").1.statements = [letX5] ∧
    parseDiagnostics "let x = 5;" = [] := ⟨rfl, rfl⟩

theorem parse_return5_noSemi :
    (parseProgramOf "return 5").1.statements = [return5] ∧
    parseDiagnostics "return 5" = [] := ⟨rfl, rfl⟩

theorem parse_return5_semi :
    (parseProgramOf "return 5;").1.statements = [return5] ∧
    parseDiagnostics "return 5;" = [] := ⟨rfl, rfl⟩

theorem parse_xPlusY_noSemi :
    (parseProgramOf "x + y").1.statements = [xPlusY] ∧
    parseDiagnostics "x + y" = [] := ⟨rfl, rfl⟩

theorem parse_xPlusY_semi :
    (parseProgramOf "x + y;").1.statements = [xPlusY] ∧
    parseDiagnostics "x + y;" = [] := ⟨rfl, rfl⟩

/-- Claim C9, counterexample: removing the trailing `;` of a statement
changes the parse when further input follows.  `x; -y` parses (cleanly)
to two statements, `x` and the prefix expression `(-y)`, while `x -y` —
the same text with the first statement's final `;` removed — parses
(cleanly) to the single infix statement `(x - y)`: the statement node is
not preserved. -/
theorem claim_C9_counterexample :
    parseDiagnostics "x; -y" = [] ∧
    (parseProgramOf "x; -y").1.statements =
      [Statement.expressionStatement ⟨IDENT, "x"⟩
        (some (Expression.identifier ⟨IDENT, "x"⟩ "x")),
       Statement.expressionStatement ⟨MINUS, "-"⟩
        (some (Expression.prefixExpression ⟨MINUS, "-"⟩ "-"
          (some (Expression.identifier ⟨IDENT, "y"⟩ "y"))))] ∧
    parseDiagnostics "x -y" = [] ∧
    (parseProgramOf "x -y").1.statements =
      [Statement.expressionStatement ⟨IDENT, "x"⟩
        (some (Expression.infixExpression ⟨MINUS, "-"⟩
          (some (Expression.identifier ⟨IDENT, "x"⟩ "x")) "-"
          (some (Expression.identifier ⟨IDENT, "y"⟩ "y"))))] :=
  ⟨rfl, rfl, rfl, rfl⟩

/-- Claim C9, amended: each statement handler (let, return, expression)
builds its node and diagnostics entirely before an optional final step
that merely consumes a trailing `;` when it is the peek token — the
returned node never depends on the semicolon.  Consequently a statement
at the end of the input parses identically with and without its final
`;` (exemplified for all three forms below); when further input follows,
removing the `;` can merge statements instead, since the next token may
continue the expression. -/
theorem claim_C9_amended :
    (∀ (fuel : Nat) (p : Parser) (v : Option Expression) (p₄ : Parser),
      p.peekToken.type = IDENT →
      (p.nextToken).peekToken.type = ASSIGN →
      parseExpression fuel LOWEST (((p.nextToken).nextToken).nextToken) =
        (v, p₄) →
      parseLetStatement (fuel + 1) p =
        (some (Statement.letStatement p.curToken
          (some ⟨(p.nextToken).curToken, (p.nextToken).curToken.literal⟩) v),
         if p₄.peekTokenIs SEMICOLON then p₄.nextToken else p₄)) ∧
    (∀ (fuel : Nat) (p : Parser) (v : Option Expression) (p₂ : Parser),
      parseExpression fuel LOWEST p.nextToken = (v, p₂) →
      parseReturnStatement (fuel + 1) p =
        (some (Statement.returnStatement p.curToken v),
         if p₂.peekTokenIs SEMICOLON then p₂.nextToken else p₂)) ∧
    (∀ (fuel : Nat) (p : Parser) (e : Option Expression) (p₁ : Parser),
      parseExpression fuel LOWEST p = (e, p₁) →
      parseExpressionStatement (fuel + 1) p =
        (Statement.expressionStatement p.curToken e,
         if p₁.peekTokenIs SEMICOLON then p₁.nextToken else p₁)) ∧
    ((parseProgramOf "let x = 5").1.statements =
       (parseProgramOf "let x = 5;").1.statements ∧
     parseDiagnostics "let x = 5" = [] ∧ parseDiagnostics "let x = 5;" = []) ∧
    ((parseProgramOf "return 5").1.statements =
       (parseProgramOf "return 5;").1.statements ∧
     parseDiagnostics "return 5" = [] ∧ parseDiagnostics "return 5;" = []) ∧
    ((parseProgramOf "x + y").1.statements =
       (parseProgramOf "x + y;").1.statements ∧
     parseDiagnostics "x + y" = [] ∧ parseDiagnostics "x + y;" = []) := by
  refine ⟨?_, ?_, ?_,
    ⟨parse_letX5_noSemi.1.trans parse_letX5_semi.1.symm,
      parse_letX5_noSemi.2, parse_letX5_semi.2⟩,
    ⟨parse_return5_noSemi.1.trans parse_return5_semi.1.symm,
      parse_return5_noSemi.2, parse_return5_semi.2⟩,
    ⟨parse_xPlusY_noSemi.1.trans parse_xPlusY_semi.1.symm,
      parse_xPlusY_noSemi.2, parse_xPlusY_semi.2⟩⟩
  · intro fuel p v p₄ h1 h2 hpe
    simp only [parseLetStatement, expectPeek_pos IDENT p h1,
      expectPeek_pos ASSIGN p.nextToken h2, hpe]
  · intro fuel p v p₂ hpe
    simp only [parseReturnStatement, hpe]
  · intro fuel p e p₁ hpe
    simp only [parseExpressionStatement, hpe]

/-- Claim C9, witness for the amended theorem: the return-statement
conjunct applied at the concrete state for `return 5;`. -/
theorem claim_C9_witness :
    parseReturnStatement 9 (parserNew (lexerNew "return 5;".data)) =
      (some (Statement.returnStatement
        (parserNew (lexerNew "return 5;".data)).curToken
        (parseExpression 8 LOWEST
          (parserNew (lexerNew "return 5;".data)).nextToken).1),
       if ((parseExpression 8 LOWEST
            (parserNew (lexerNew "return 5;".data)).nextToken).2).peekTokenIs
          SEMICOLON then
         ((parseExpression 8 LOWEST
            (parserNew (lexerNew "return 5;".data)).nextToken).2).nextToken
       else
         (parseExpression 8 LOWEST
            (parserNew (lexerNew "return 5;".data)).nextToken).2) :=
  claim_C9_amended.2.1 8 (parserNew (lexerNew "return 5;".data))
    (parseExpression 8 LOWEST
      (parserNew (lexerNew "return 5;".data)).nextToken).1
    (parseExpression 8 LOWEST
      (parserNew (lexerNew "return 5;".data)).nextToken).2 rfl

/-- Claim C10: on the empty source, parser construction primes both
lookahead tokens to the EOF token, and `ParseProgram` returns an empty
statement list and an empty error list. -/
theorem claim_C10 :
    (parserNew (lexerNew "".data)).curToken = ⟨EOF, ""⟩ ∧
    (parserNew (lexerNew "".data)).peekToken = ⟨EOF, ""⟩ ∧
    (parseProgramOf "").1.statements = [] ∧
    (parseProgramOf "").2.errors = [] :=
  ⟨rfl, rfl, rfl, rfl⟩

end Monkey
